import Mathlib

/-
  Verification development for checkov/common/runners/runner_registry.py.

  The registry's data model and operations are embedded as executable Lean
  definitions.  Python dictionaries become association lists in insertion
  order, in-place record mutation becomes functional record update, and a
  raised exception (KeyError / ValueError) is modelled as an Option.none
  result.  External collaborators (the Terraform definitions parser and the
  structural context provider) enter as explicit function parameters, since
  only their output contract is relevant here.
-/

namespace Checkov

/-- Models checkov.common.models.enums.CheckResult as used by the registry. -/
inductive CheckResult where
  | PASSED
  | FAILED
  | SKIPPED
  deriving DecidableEq, Repr

/-- Models a skip-directive dictionary as produced by the context provider:
keys id and suppress_comment. -/
structure Skip where
  id : String
  suppress_comment : String
  deriving DecidableEq, Repr

/-- Models checkov.common.output.record.Record restricted to the fields the
registry reads or writes; the Python check_result dict is flattened into the
result and suppress_comment fields. -/
structure Record where
  check_id : String
  resource : String
  result : CheckResult
  suppress_comment : Option String
  file_path : String
  file_line_range : List Nat
  code_block : List (Nat × String)
  guideline : Option String
  deriving DecidableEq, Repr

/-- Models checkov.common.output.report.Report: three ordered collections of
check records. -/
structure Report where
  failed_checks : List Record
  passed_checks : List Record
  skipped_checks : List Record
  deriving DecidableEq, Repr

/-- Modelled from the spec: Report.add_record lives in
checkov/common/output/report.py, which is not under src/.  Per the spec's
data model and the reconciler step "set its result to SKIPPED ... then
insert it into the skipped collection", add_record appends the record to the
collection matching its result. -/
def Report.add_record (report : Report) (record : Record) : Report :=
  match record.result with
  | CheckResult.PASSED => { report with passed_checks := report.passed_checks ++ [record] }
  | CheckResult.FAILED => { report with failed_checks := report.failed_checks ++ [record] }
  | CheckResult.SKIPPED => { report with skipped_checks := report.skipped_checks ++ [record] }

/-- Modelled from the spec: Report.get_exit_code is not under src/.  "A report
contributes a failing status if it has at least one FAILED record and
soft-fail is not requested; soft-fail forces every report's contribution to
non-failing regardless of content." -/
def Report.get_exit_code (report : Report) (soft_fail : Bool) : Nat :=
  if soft_fail then 0 else if report.failed_checks.isEmpty then 0 else 1

/-- Models the Python expression needle in hay on strings: containment of
needle anywhere inside hay. -/
def pyIn (needle hay : String) : Bool :=
  hay.data.tails.any fun t => needle.data.isPrefixOf t

/-- Models an entry of the Entity Context Index built by
get_enriched_resources (a Python dict with four fixed keys). -/
structure EnrichedEntry where
  entity_code_lines : List (Nat × String)
  entity_lines_range : List Nat
  scanned_file : String
  skipped_checks : List Skip
  deriving DecidableEq, Repr

/-- Models the defaultdict(dict) index as an association list in insertion
order.  A value Option.none models an empty inner dict, which only arises
from a defaultdict auto-insertion on subscript access of a missing key. -/
abbrev Index := List (String × Option EnrichedEntry)

/-- Models Python dict lookup d.get(k): Option.none when the key is absent,
never inserting anything. -/
def dictGet : Index → String → Option (Option EnrichedEntry)
  | [], _ => Option.none
  | p :: rest, k => if p.1 = k then Option.some p.2 else dictGet rest k

/-- Models Python dict assignment d[k] = v: an existing key keeps its
position and gets the new value, a new key is appended at the end. -/
def dictInsert : Index → String → Option EnrichedEntry → Index
  | [], k, v => [(k, v)]
  | p :: rest, k, v => if p.1 = k then (k, v) :: rest else p :: dictInsert rest k v

/-- Models defaultdict(dict) subscript access d[k]: a present key returns its
value with the dict unchanged; a missing key inserts an empty dict (modelled
as Option.none) and returns that empty dict. -/
def defaultdictGet (idx : Index) (k : String) : Index × Option EnrichedEntry :=
  match dictGet idx k with
  | Option.some v => (idx, v)
  | Option.none => (idx ++ [(k, Option.none)], Option.none)

/-- Models a Runner as seen by the registry: only its check_type identity
string matters for filtering. -/
structure Runner where
  check_type : String
  deriving DecidableEq, Repr

/-- Models checkov.common.runners.runner_filter.RunnerFilter as read by
filter_runner_framework: a framework selection that may be unset. -/
structure RunnerFilter where
  framework : Option String
  deriving DecidableEq, Repr

/-- Models RunnerRegistry.filter_runner_framework as a pure function from the
registry state (runner_filter, runners) to the new runners list.  A Python
falsy runner_filter is modelled as Option.none. -/
def filter_runner_framework (runner_filter : Option RunnerFilter) (runners : List Runner) :
    List Runner :=
  match runner_filter with
  | Option.none => runners
  | Option.some rf =>
    match rf.framework with
    | Option.none => runners
    | Option.some fw =>
      if fw = "all" then runners
      else runners.filter fun runner => pyIn runner.check_type fw

/-- Models the exit-code computation of RunnerRegistry.print_reports: one
exit code is appended per report (empty or not), and the aggregate is 1
exactly when 1 occurs among them.  Rendering side effects are out of scope. -/
def print_reports_exit_code (scan_reports : List Report) (soft_fail : Bool) : Nat :=
  let exit_codes := scan_reports.map fun report => report.get_exit_code soft_fail
  if 1 ∈ exit_codes then 1 else 0

/-- Models the output of dict_utils.getInnerDict on the structural context
provider's result for one block: the provider's contract supplies start/end
line, verbatim code lines and the attached skip directives. -/
structure EntityContext where
  start_line : Nat
  end_line : Nat
  code_lines : List (Nat × String)
  skipped_checks : List Skip
  deriving DecidableEq, Repr

/-- Models the external collaborators used by get_enriched_resources:
the per-block-type context parsers (get_entity_context_path), the context
provider composed with getInnerDict (inner_context, taking the file and the
context path), tf_runner._strip_module_referrer and os.path.relpath. -/
structure ExternalEnv (α : Type) where
  get_entity_context_path : String → α → List String
  inner_context : String → List String → EntityContext
  strip_module_referrer : String → String
  relpath : String → String → String

/-- Models the CHECK_BLOCK_TYPES frozenset of runner_registry.py. -/
def CHECK_BLOCK_TYPES : List String := ["resource", "data", "provider", "module"]

/-- One index assignment performed by get_enriched_resources for one entity:
the entity identity string paired with the enriched-resource entry recorded
for it. -/
def entryOf {α : Type} (env : ExternalEnv α) (scanned_file full_file_path block_type : String)
    (entity : α) : String × EnrichedEntry :=
  let definition_path := env.get_entity_context_path block_type entity
  let entity_id := String.intercalate "." definition_path
  let ctx := env.inner_context full_file_path (block_type :: definition_path)
  (entity_id,
    { entity_code_lines := ctx.code_lines,
      entity_lines_range := [ctx.start_line, ctx.end_line],
      scanned_file := scanned_file,
      skipped_checks := ctx.skipped_checks })

/-- Models RunnerRegistry.get_enriched_resources.  tf_definitions is the
parser output (file path to definition, a definition being a dict from block
type to entity list, both in dict order); the external collaborators come
from env.  The report argument of the Python function is unused there and
omitted. -/
def get_enriched_resources {α : Type} (env : ExternalEnv α) (repo_root : String)
    (tf_definitions : List (String × List (String × List α))) : Index :=
  tf_definitions.foldl
    (fun idx fd =>
      let scanned_file := env.relpath (env.strip_module_referrer fd.1) repo_root
      fd.2.foldl
        (fun idx bp =>
          if bp.1 ∈ CHECK_BLOCK_TYPES then
            bp.2.foldl
              (fun idx entity =>
                let p := entryOf env scanned_file fd.1 bp.1 entity
                dictInsert idx p.1 (Option.some p.2))
              idx
          else idx)
        idx)
    []

/-- The index assignments contributed by one block-type group of one parsed
file, in processing order (none for a block type outside CHECK_BLOCK_TYPES). -/
def blockOcc {α : Type} (env : ExternalEnv α) (scanned_file full_file_path : String)
    (bp : String × List α) : List (String × EnrichedEntry) :=
  if bp.1 ∈ CHECK_BLOCK_TYPES then
    bp.2.map (fun entity => entryOf env scanned_file full_file_path bp.1 entity)
  else []

/-- The index assignments contributed by one parsed file, in processing
order. -/
def fileOcc {α : Type} (env : ExternalEnv α) (repo_root : String)
    (fd : String × List (String × List α)) : List (String × EnrichedEntry) :=
  fd.2.foldl
    (fun acc bp =>
      acc ++ blockOcc env (env.relpath (env.strip_module_referrer fd.1) repo_root) fd.1 bp)
    []

/-- Lists, in processing order, the (entity_id, entry) assignments that
get_enriched_resources performs; used to state last-write-wins. -/
def occurrences {α : Type} (env : ExternalEnv α) (repo_root : String)
    (tf_definitions : List (String × List (String × List α))) : List (String × EnrichedEntry) :=
  tf_definitions.foldl (fun acc fd => acc ++ fileOcc env repo_root fd) []

/-- Models RunnerRegistry.enrich_plan_report: every failed record whose
resource has a truthy index entry gets its file_path, file_line_range and
code_block overwritten from that entry; a missing key (dict.get gives None)
or an empty inner dict (falsy) leaves the record untouched.  Passed and
skipped records are not visited. -/
def enrich_plan_report (report : Report) (enriched_resources : Index) : Report :=
  { report with
    failed_checks := report.failed_checks.map fun record =>
      match dictGet enriched_resources record.resource with
      | Option.some (Option.some er) =>
        { record with
          file_path := er.scanned_file,
          file_line_range := er.entity_lines_range,
          code_block := er.entity_code_lines }
      | _ => record }

/-- Models the inner loop of RunnerRegistry.handle_skipped_checks over one
record's skip directives.  On a match the record is removed from
failed_checks (list.remove: first occurrence, Option.none models the
ValueError raised when the record is absent), its result becomes SKIPPED
with the directive's suppress_comment, and add_record re-inserts it; the
loop then continues over the remaining directives with the mutated record. -/
def runSkips (report : Report) (record : Record) : List Skip → Option Report
  | [] => Option.some report
  | sk :: rest =>
    if pyIn record.check_id sk.id then
      if record ∈ report.failed_checks then
        let record2 := { record with
          result := CheckResult.SKIPPED,
          suppress_comment := Option.some sk.suppress_comment }
        runSkips
          (Report.add_record
            { report with failed_checks := report.failed_checks.erase record } record2)
          record2 rest
      else Option.none
    else runSkips report record rest

/-- If the inner directive loop returns normally, the failed collection has
not grown (a match removes one record and re-adds it as SKIPPED). -/
theorem runSkips_failed_length_le {report report2 : Report} {record : Record}
    {sks : List Skip} (h : runSkips report record sks = Option.some report2) :
    report2.failed_checks.length ≤ report.failed_checks.length := by
  induction sks generalizing report record with
  | nil =>
    simp only [runSkips, Option.some.injEq] at h
    simp [← h]
  | cons sk rest ih =>
    simp only [runSkips] at h
    by_cases hm : pyIn record.check_id sk.id
    · simp only [hm, if_true] at h
      by_cases hmem : record ∈ report.failed_checks
      · simp only [hmem, if_true] at h
        have := ih h
        simp only [Report.add_record] at this
        have herase : (report.failed_checks.erase record).length ≤ report.failed_checks.length :=
          (report.failed_checks.erase_sublist record).length_le
        omega
      · simp [hmem] at h
    · simp only [hm, if_false] at h
      exact ih h

/-- Models the outer loop of RunnerRegistry.handle_skipped_checks: a Python
list iterator over the live failed_checks list is position based, so i
indexes the current (possibly already shrunk) list.  The Index component is
the final state of the defaultdict (subscript access of a missing resource
auto-inserts an empty dict whose missing skipped_checks key then raises
KeyError); Option.none in the second component models a propagated KeyError
or ValueError. -/
def hscLoop (idx : Index) (i : Nat) (report : Report) : Index × Option Report :=
  match h : report.failed_checks[i]? with
  | Option.none => (idx, Option.some report)
  | Option.some record =>
    match defaultdictGet idx record.resource with
    | (idx2, Option.none) => (idx2, Option.none)
    | (idx2, Option.some entry) =>
      match h2 : runSkips report record entry.skipped_checks with
      | Option.none => (idx2, Option.none)
      | Option.some report2 => hscLoop idx2 (i + 1) report2
termination_by report.failed_checks.length - i
decreasing_by
  have hlt : i < report.failed_checks.length := by
    by_contra hge
    rw [List.getElem?_eq_none (Nat.le_of_not_lt hge)] at h
    exact Option.noConfusion h
  have hle := runSkips_failed_length_le h2
  omega

/-- Models RunnerRegistry.handle_skipped_checks.  The first component is the
final state of the enriched_resources defaultdict, the second is the
returned report (Option.none when an exception propagates). -/
def handle_skipped_checks (report : Report) (enriched_resources : Index) :
    Index × Option Report :=
  hscLoop enriched_resources 0 report

/-! Unfolding lemmas for the outer loop, one per way an iteration can end. -/

/-- The outer loop stops as soon as the position runs off the live list. -/
theorem hscLoop_done (idx : Index) (i : Nat) (report : Report)
    (h : report.failed_checks[i]? = Option.none) :
    hscLoop idx i report = (idx, Option.some report) := by
  rw [hscLoop.eq_def, h]

/-- One normal iteration: the current record's resource is present with a
real entry and the directive loop returns normally. -/
theorem hscLoop_step (idx : Index) (i : Nat) (report : Report) (record : Record)
    (entry : EnrichedEntry) (report2 : Report)
    (h : report.failed_checks[i]? = Option.some record)
    (hidx : dictGet idx record.resource = Option.some (Option.some entry))
    (h2 : runSkips report record entry.skipped_checks = Option.some report2) :
    hscLoop idx i report = hscLoop idx (i + 1) report2 := by
  rw [hscLoop.eq_def, h]
  simp only [defaultdictGet, hidx]
  split
  · rename_i heq
    rw [h2] at heq
    exact Option.noConfusion heq
  · rename_i r2 heq
    rw [h2] at heq
    cases heq
    rfl

/-- A missing resource key: defaultdict access appends an empty entry and the
subsequent skipped_checks key access raises KeyError. -/
theorem hscLoop_keyerror (idx : Index) (i : Nat) (report : Report) (record : Record)
    (h : report.failed_checks[i]? = Option.some record)
    (hidx : dictGet idx record.resource = Option.none) :
    hscLoop idx i report = (idx ++ [(record.resource, Option.none)], Option.none) := by
  rw [hscLoop.eq_def, h]
  simp only [defaultdictGet, hidx]

/-- A resource key mapped to an empty dict (a leftover defaultdict
auto-insertion): the skipped_checks key access raises KeyError without
touching the index. -/
theorem hscLoop_emptydict (idx : Index) (i : Nat) (report : Report) (record : Record)
    (h : report.failed_checks[i]? = Option.some record)
    (hidx : dictGet idx record.resource = Option.some Option.none) :
    hscLoop idx i report = (idx, Option.none) := by
  rw [hscLoop.eq_def, h]
  simp only [defaultdictGet, hidx]

/-- A ValueError from the directive loop propagates. -/
theorem hscLoop_valueerror (idx : Index) (i : Nat) (report : Report) (record : Record)
    (entry : EnrichedEntry)
    (h : report.failed_checks[i]? = Option.some record)
    (hidx : dictGet idx record.resource = Option.some (Option.some entry))
    (h2 : runSkips report record entry.skipped_checks = Option.none) :
    hscLoop idx i report = (idx, Option.none) := by
  rw [hscLoop.eq_def, h]
  simp only [defaultdictGet, hidx]
  split
  · rfl
  · rename_i r2 heq
    rw [h2] at heq
    exact Option.noConfusion heq

/-! Characterisation of the Python string-containment test. -/

/-- List-level front-part test, characterised by an explicit decomposition. -/
theorem isPrefixOf_eq_true_iff (l₁ l₂ : List Char) :
    l₁.isPrefixOf l₂ = true ↔ ∃ t, l₁ ++ t = l₂ := by
  induction l₁ generalizing l₂ with
  | nil => simp [List.isPrefixOf]
  | cons a as ih =>
    cases l₂ with
    | nil => simp [List.isPrefixOf]
    | cons b bs =>
      simp only [List.isPrefixOf, Bool.and_eq_true, beq_iff_eq, ih, List.cons_append,
        List.cons.injEq]
      constructor
      · rintro ⟨hab, t, ht⟩
        exact ⟨t, hab, ht⟩
      · rintro ⟨t, hab, ht⟩
        exact ⟨hab, t, ht⟩

/-- pyIn needle hay holds exactly when hay splits as pre ++ needle ++ post. -/
theorem pyIn_eq_true_iff (needle hay : String) :
    pyIn needle hay = true ↔ ∃ pre post : String, pre ++ needle ++ post = hay := by
  constructor
  · intro h
    rw [pyIn, List.any_eq_true] at h
    obtain ⟨t, ht, hpref⟩ := h
    obtain ⟨pre, hpre⟩ := (List.mem_tails _ _).mp ht
    obtain ⟨post, hpost⟩ := (isPrefixOf_eq_true_iff _ _).mp hpref
    refine ⟨⟨pre⟩, ⟨post⟩, ?_⟩
    apply String.ext
    simp only [String.data_append]
    rw [List.append_assoc, hpost, hpre]
  · rintro ⟨pre, post, h⟩
    rw [pyIn, List.any_eq_true]
    refine ⟨needle.data ++ post.data, ?_, ?_⟩
    · rw [List.mem_tails]
      refine ⟨pre.data, ?_⟩
      have := congrArg String.data h
      simpa [String.data_append, List.append_assoc] using this
    · exact (isPrefixOf_eq_true_iff _ _).mpr ⟨post.data, rfl⟩

/-! Lemmas about the directive loop. -/

/-- Directives that do not match leave the loop state untouched. -/
theorem runSkips_no_match (report : Report) (record : Record) (sks : List Skip)
    (h : ∀ s ∈ sks, pyIn record.check_id s.id = false) :
    runSkips report record sks = Option.some report := by
  induction sks with
  | nil => rfl
  | cons sk rest ih =>
    have hsk := h sk (by simp)
    simp only [runSkips, hsk, Bool.false_eq_true, if_false]
    exact ih fun s hs => h s (by simp [hs])

/-- A run of non-matching directives at the front can be dropped. -/
theorem runSkips_append_no_match (report : Report) (record : Record)
    (pre rest : List Skip) (h : ∀ s ∈ pre, pyIn record.check_id s.id = false) :
    runSkips report record (pre ++ rest) = runSkips report record rest := by
  induction pre with
  | nil => rfl
  | cons sk pre ih =>
    have hsk := h sk (by simp)
    simp only [List.cons_append, runSkips, hsk, Bool.false_eq_true, if_false]
    exact ih fun s hs => h s (by simp [hs])

/-- A normal directive-loop run never puts new records into failed_checks. -/
theorem runSkips_failed_subset {report report2 : Report} {record : Record}
    {sks : List Skip} (h : runSkips report record sks = Option.some report2) :
    ∀ r ∈ report2.failed_checks, r ∈ report.failed_checks := by
  induction sks generalizing report record with
  | nil =>
    simp only [runSkips, Option.some.injEq] at h
    subst h
    exact fun r hr => hr
  | cons sk rest ih =>
    simp only [runSkips] at h
    by_cases hm : pyIn record.check_id sk.id
    · simp only [hm, if_true] at h
      by_cases hmem : record ∈ report.failed_checks
      · simp only [hmem, if_true] at h
        intro r hr
        have := ih h r hr
        simp only [Report.add_record] at this
        exact (report.failed_checks.erase_subset record) this
      · simp [hmem] at h
    · simp only [hm, if_false] at h
      exact ih h

/-- The (check_id, resource_id) identity of a record. -/
def pairKey (record : Record) : String × String := (record.check_id, record.resource)

/-- All record identities of a report, across its three collections. -/
def reportKeys (report : Report) : List (String × String) :=
  (report.failed_checks ++ report.passed_checks ++ report.skipped_checks).map pairKey

/-- A normal directive-loop run permutes the multiset of record identities:
a match deletes one identity from failed and appends the same identity to
skipped. -/
theorem runSkips_keys_perm {report report2 : Report} {record : Record}
    {sks : List Skip} (h : runSkips report record sks = Option.some report2) :
    (reportKeys report2).Perm (reportKeys report) := by
  induction sks generalizing report record with
  | nil =>
    simp only [runSkips, Option.some.injEq] at h
    subst h
    exact List.Perm.refl _
  | cons sk rest ih =>
    simp only [runSkips] at h
    by_cases hm : pyIn record.check_id sk.id
    · simp only [hm, if_true] at h
      by_cases hmem : record ∈ report.failed_checks
      · simp only [hmem, if_true] at h
        refine (ih h).trans ?_
        rw [List.perm_iff_count]
        intro a
        have h1 := ((List.perm_cons_erase hmem).map pairKey).count_eq a
        simp only [Report.add_record, reportKeys, pairKey, List.map_append, List.count_append,
          List.map_cons, List.map_nil, List.count_cons, List.count_nil] at h1 ⊢
        omega
      · simp [hmem] at h
    · simp only [hm, if_false] at h
      exact ih h

/-- Auxiliary measure induction: a completed outer loop permutes the
multiset of record identities of the report. -/
theorem hscLoop_keys_perm :
    ∀ (n i : Nat) (idx : Index) (report : Report),
      report.failed_checks.length - i ≤ n →
      ∀ {idx2 : Index} {report2 : Report},
        hscLoop idx i report = (idx2, Option.some report2) →
        (reportKeys report2).Perm (reportKeys report) := by
  intro n
  induction n with
  | zero =>
    intro i idx report hle idx2 report2 hrun
    have hnone : report.failed_checks[i]? = Option.none :=
      List.getElem?_eq_none (by omega)
    rw [hscLoop_done _ _ _ hnone] at hrun
    cases hrun
    exact List.Perm.refl _
  | succ n ih =>
    intro i idx report hle idx2 report2 hrun
    cases hcur : report.failed_checks[i]? with
    | none =>
      rw [hscLoop_done _ _ _ hcur] at hrun
      cases hrun
      exact List.Perm.refl _
    | some record =>
      cases hget : dictGet idx record.resource with
      | none =>
        rw [hscLoop_keyerror _ _ _ _ hcur hget] at hrun
        exact absurd (congrArg Prod.snd hrun) (by simp)
      | some v =>
        cases v with
        | none =>
          rw [hscLoop_emptydict _ _ _ _ hcur hget] at hrun
          exact absurd (congrArg Prod.snd hrun) (by simp)
        | some entry =>
          cases hrs : runSkips report record entry.skipped_checks with
          | none =>
            rw [hscLoop_valueerror _ _ _ _ _ hcur hget hrs] at hrun
            exact absurd (congrArg Prod.snd hrun) (by simp)
          | some rep2 =>
            rw [hscLoop_step _ _ _ _ _ _ hcur hget hrs] at hrun
            have hlen := runSkips_failed_length_le hrs
            have hlt : i < report.failed_checks.length :=
              (List.getElem?_eq_some.mp hcur).1
            have hperm := ih (i + 1) idx rep2 (by omega) hrun
            exact hperm.trans (runSkips_keys_perm hrs)

/-- Auxiliary measure induction: when every record currently in
failed_checks has its resource as a key of the index, the outer loop never
reaches the defaultdict auto-insertion, so the index comes back unchanged
(even when the run aborts with an exception). -/
theorem hscLoop_index_unchanged :
    ∀ (n i : Nat) (idx : Index) (report : Report),
      report.failed_checks.length - i ≤ n →
      (∀ r ∈ report.failed_checks, (dictGet idx r.resource).isSome) →
      (hscLoop idx i report).1 = idx := by
  intro n
  induction n with
  | zero =>
    intro i idx report hle _
    have hnone : report.failed_checks[i]? = Option.none :=
      List.getElem?_eq_none (by omega)
    rw [hscLoop_done _ _ _ hnone]
  | succ n ih =>
    intro i idx report hle hkeys
    cases hcur : report.failed_checks[i]? with
    | none => rw [hscLoop_done _ _ _ hcur]
    | some record =>
      have hmem : record ∈ report.failed_checks := by
        obtain ⟨hlt, heq⟩ := List.getElem?_eq_some.mp hcur
        exact heq ▸ List.getElem_mem hlt
      have hsome := hkeys record hmem
      cases hget : dictGet idx record.resource with
      | none => rw [hget] at hsome; exact absurd hsome (by simp)
      | some v =>
        cases v with
        | none => rw [hscLoop_emptydict _ _ _ _ hcur hget]
        | some entry =>
          cases hrs : runSkips report record entry.skipped_checks with
          | none => rw [hscLoop_valueerror _ _ _ _ _ hcur hget hrs]
          | some rep2 =>
            rw [hscLoop_step _ _ _ _ _ _ hcur hget hrs]
            have hlen := runSkips_failed_length_le hrs
            have hlt : i < report.failed_checks.length :=
              (List.getElem?_eq_some.mp hcur).1
            exact ih (i + 1) idx rep2 (by omega)
              (fun r hr => hkeys r (runSkips_failed_subset hrs r hr))

/-! Machinery relating the nested index-building folds to the flat list of
assignments, and a characterisation of lookup after a sequence of dict
assignments. -/

/-- One dict assignment step of the index construction. -/
def insStep : Index → String × EnrichedEntry → Index :=
  fun idx p => dictInsert idx p.1 (Option.some p.2)

/-- An accumulating append fold splits off its accumulator. -/
theorem foldl_append_seg {σ τ : Type} (g : σ → List τ) (l : List σ) :
    ∀ acc : List τ,
      l.foldl (fun a x => a ++ g x) acc = acc ++ l.foldl (fun a x => a ++ g x) [] := by
  induction l with
  | nil => intro acc; simp
  | cons x xs ih =>
    intro acc
    simp only [List.foldl_cons]
    rw [ih (acc ++ g x), ih ([] ++ g x)]
    simp [List.append_assoc]

/-- Folding a step function over a concatenation-built list equals the
nested fold of the step function over the pieces. -/
theorem foldl_flatten {σ τ ι : Type} (g : σ → List τ) (step : ι → τ → ι) (l : List σ) :
    ∀ idx : ι,
      (l.foldl (fun a x => a ++ g x) []).foldl step idx
        = l.foldl (fun b x => (g x).foldl step b) idx := by
  induction l with
  | nil => intro idx; rfl
  | cons x xs ih =>
    intro idx
    simp only [List.foldl_cons]
    rw [foldl_append_seg g xs ([] ++ g x), List.foldl_append]
    simp only [List.nil_append]
    exact ih _

/-- Lookup after a dict assignment: the assigned key reads back the new
value, other keys are unaffected. -/
theorem dictGet_dictInsert (idx : Index) (k k' : String) (v : Option EnrichedEntry) :
    dictGet (dictInsert idx k v) k' = if k = k' then Option.some v else dictGet idx k' := by
  induction idx with
  | nil => simp [dictInsert, dictGet]
  | cons p rest ih =>
    simp only [dictInsert]
    by_cases h1 : p.1 = k
    · simp only [h1, if_true, dictGet]
      by_cases h2 : k = k'
      · simp [h2]
      · have hp : p.1 ≠ k' := fun he => h2 (h1.symm.trans he)
        simp [h2, hp]
    · simp only [h1, if_false, dictGet, ih]
      by_cases h2 : p.1 = k'
      · have hk : k ≠ k' := fun he => h1 (h2.trans he.symm)
        simp [h2, hk]
      · simp [h2]

/-- Lookup after a whole sequence of dict assignments: the result for k is
the value of the last assignment whose key is k, if any. -/
theorem dictGet_foldl_insert (k : String) (l : List (String × EnrichedEntry)) :
    dictGet (l.foldl insStep []) k
      = ((l.filter fun p => p.1 == k).getLast?).map (fun p => Option.some p.2) := by
  induction l using List.reverseRecOn with
  | nil => rfl
  | append_singleton l p ih =>
    rw [List.foldl_append]
    simp only [List.foldl_cons, List.foldl_nil, insStep]
    rw [dictGet_dictInsert, List.filter_append]
    by_cases hk : p.1 = k
    · simp [hk, List.getLast?_concat]
    · simp [hk, ih]

/-- get_enriched_resources is the fold of the single dict-assignment step
over its flat list of assignments in processing order. -/
theorem get_eq_occ_fold {α : Type} (env : ExternalEnv α) (repo_root : String)
    (tfds : List (String × List (String × List α))) :
    get_enriched_resources env repo_root tfds
      = (occurrences env repo_root tfds).foldl insStep [] := by
  rw [occurrences, foldl_flatten (fileOcc env repo_root) insStep tfds [],
    get_enriched_resources]
  apply List.foldl_ext
  intro idx fd _
  rw [fileOcc,
    foldl_flatten (blockOcc env (env.relpath (env.strip_module_referrer fd.1) repo_root) fd.1)
      insStep fd.2 idx]
  apply List.foldl_ext
  intro idx2 bp _
  by_cases hbt : bp.1 ∈ CHECK_BLOCK_TYPES
  · simp only [blockOcc, hbt, if_true, List.foldl_map]
    rfl
  · simp [blockOcc, hbt]

/-! Concrete sample data used by witnesses and counterexamples. -/

/-- A FAILED record with the given check id and resource identity. -/
def exRecord (cid res : String) : Record :=
  ⟨cid, res, CheckResult.FAILED, Option.none, "plan.json", [], [], Option.none⟩

/-- An index entry with the given directive list. -/
def exEntry (sks : List Skip) : EnrichedEntry :=
  ⟨[(1, "resource")], [1, 2], "main.tf", sks⟩

/-! The claims. -/

/-- Claim C8: filter_runner_framework is idempotent, and each of an unset
filter, an unset framework selection, and the selection "all" leaves the
runner list completely unchanged. -/
theorem filter_runner_framework_idempotent_and_noop
    (runner_filter : Option RunnerFilter) (runners : List Runner) :
    filter_runner_framework runner_filter (filter_runner_framework runner_filter runners)
        = filter_runner_framework runner_filter runners
      ∧ filter_runner_framework Option.none runners = runners
      ∧ filter_runner_framework (Option.some ⟨Option.none⟩) runners = runners
      ∧ filter_runner_framework (Option.some ⟨Option.some "all"⟩) runners = runners := by
  refine ⟨?_, rfl, rfl, by simp [filter_runner_framework]⟩
  match runner_filter with
  | Option.none => rfl
  | Option.some ⟨Option.none⟩ => rfl
  | Option.some ⟨Option.some fw⟩ =>
    by_cases hall : fw = "all"
    · simp [filter_runner_framework, hall]
    · simp [filter_runner_framework, hall, List.filter_filter]

/-- Claim C10: with a single-string framework selection other than "all",
a runner is kept exactly when its check_type occurs inside the framework
string (substring containment, not equality). -/
theorem filter_runner_framework_substring_semantics
    (rf : RunnerFilter) (fw : String) (runners : List Runner) (runner : Runner)
    (hfw : rf.framework = Option.some fw) (hall : fw ≠ "all") :
    runner ∈ filter_runner_framework (Option.some rf) runners ↔
      runner ∈ runners ∧ ∃ pre post : String, pre ++ runner.check_type ++ post = fw := by
  obtain ⟨fwopt⟩ := rf
  simp only at hfw
  subst hfw
  simp only [filter_runner_framework, if_neg hall]
  rw [List.mem_filter, pyIn_eq_true_iff]

/-- Witness for C10: the runner with check_type "terraform" survives
filtering under framework "terraform_plan" although the two differ. -/
theorem filter_runner_framework_substring_semantics_witness :
    Runner.mk "terraform" ∈ filter_runner_framework
      (Option.some ⟨Option.some "terraform_plan"⟩) [Runner.mk "terraform"] :=
  (filter_runner_framework_substring_semantics ⟨Option.some "terraform_plan"⟩
      "terraform_plan" [Runner.mk "terraform"] (Runner.mk "terraform") rfl
      (by decide)).mpr ⟨by simp, "", "_plan", by decide⟩

/-- Claim C5: the aggregate exit code of print_reports is 1 exactly when
soft_fail is off and some report has a FAILED record, and soft_fail forces
exit code 0 regardless of report contents (logical OR across reports). -/
theorem print_reports_exit_code_or_semantics (scan_reports : List Report) (soft_fail : Bool) :
    (print_reports_exit_code scan_reports soft_fail = 1 ↔
        soft_fail = false ∧ ∃ report ∈ scan_reports, report.failed_checks ≠ [])
      ∧ (soft_fail = true → print_reports_exit_code scan_reports soft_fail = 0) := by
  have hexit : ∀ report : Report, report.get_exit_code soft_fail = 1 ↔
      soft_fail = false ∧ report.failed_checks ≠ [] := by
    intro report
    cases soft_fail with
    | true => simp [Report.get_exit_code]
    | false =>
      by_cases he : report.failed_checks.isEmpty
      · simp [Report.get_exit_code, he, List.isEmpty_iff.mp he]
      · have hne : report.failed_checks ≠ [] := fun hh => he (by simp [hh])
        simp [Report.get_exit_code, he, hne]
  constructor
  · simp only [print_reports_exit_code]
    by_cases hc : (1 : Nat) ∈ scan_reports.map fun report => report.get_exit_code soft_fail
    · rw [if_pos hc]
      constructor
      · intro _
        obtain ⟨r, hr, h1⟩ := List.mem_map.mp hc
        obtain ⟨hsf, hne⟩ := (hexit r).mp h1
        exact ⟨hsf, r, hr, hne⟩
      · intro _
        rfl
    · rw [if_neg hc]
      constructor
      · intro h01
        exact absurd h01 (by decide)
      · rintro ⟨hsf, r, hr, hne⟩
        exact absurd (List.mem_map.mpr ⟨r, hr, (hexit r).mpr ⟨hsf, hne⟩⟩) hc
  · intro hsf
    subst hsf
    simp only [print_reports_exit_code]
    rw [if_neg]
    intro hmem
    obtain ⟨r, _, hr⟩ := List.mem_map.mp hmem
    simp [Report.get_exit_code] at hr

/-- Witness for C5: with soft_fail on, a report with a FAILED record still
yields exit code 0. -/
theorem print_reports_exit_code_or_semantics_witness :
    print_reports_exit_code [⟨[exRecord "CKV_1" "aws_instance.foo"], [], []⟩] true = 0 :=
  (print_reports_exit_code_or_semantics
    [⟨[exRecord "CKV_1" "aws_instance.foo"], [], []⟩] true).2 rfl

/-- Claim C9: the Entity Context Index lookup for any identity k equals the
entry recorded by the last assignment with key k that get_enriched_resources
performs in processing order, so a later occurrence of a duplicated identity
silently overwrites the earlier one (and an identity never assigned is
absent).  The construction is total: no error is raised. -/
theorem get_enriched_resources_last_write_wins {α : Type} (env : ExternalEnv α)
    (repo_root : String) (tf_definitions : List (String × List (String × List α)))
    (k : String) :
    dictGet (get_enriched_resources env repo_root tf_definitions) k
      = (((occurrences env repo_root tf_definitions).filter fun p => p.1 == k).getLast?).map
          (fun p => Option.some p.2) := by
  rw [get_eq_occ_fold, dictGet_foldl_insert]

/-- Claim C6: enrich_plan_report leaves passed and skipped collections
untouched and preserves the failed collection's length; for each failed
record it overwrites exactly file_path, file_line_range and code_block when
the resource has a (truthy) index entry, keeps every other field, and leaves
the whole record unchanged when the resource has no entry (or only an empty
auto-inserted one). -/
theorem enrich_plan_report_frame (report : Report) (idx : Index) :
    (enrich_plan_report report idx).passed_checks = report.passed_checks
    ∧ (enrich_plan_report report idx).skipped_checks = report.skipped_checks
    ∧ (enrich_plan_report report idx).failed_checks.length = report.failed_checks.length
    ∧ ∀ i (h1 : i < report.failed_checks.length)
        (h2 : i < (enrich_plan_report report idx).failed_checks.length),
        (((enrich_plan_report report idx).failed_checks.get ⟨i, h2⟩).check_id
              = (report.failed_checks.get ⟨i, h1⟩).check_id
          ∧ ((enrich_plan_report report idx).failed_checks.get ⟨i, h2⟩).resource
              = (report.failed_checks.get ⟨i, h1⟩).resource
          ∧ ((enrich_plan_report report idx).failed_checks.get ⟨i, h2⟩).result
              = (report.failed_checks.get ⟨i, h1⟩).result
          ∧ ((enrich_plan_report report idx).failed_checks.get ⟨i, h2⟩).suppress_comment
              = (report.failed_checks.get ⟨i, h1⟩).suppress_comment
          ∧ ((enrich_plan_report report idx).failed_checks.get ⟨i, h2⟩).guideline
              = (report.failed_checks.get ⟨i, h1⟩).guideline)
        ∧ (∀ er, dictGet idx (report.failed_checks.get ⟨i, h1⟩).resource
              = Option.some (Option.some er) →
            (enrich_plan_report report idx).failed_checks.get ⟨i, h2⟩
              = { report.failed_checks.get ⟨i, h1⟩ with
                  file_path := er.scanned_file,
                  file_line_range := er.entity_lines_range,
                  code_block := er.entity_code_lines })
        ∧ ((dictGet idx (report.failed_checks.get ⟨i, h1⟩).resource = Option.none ∨
            dictGet idx (report.failed_checks.get ⟨i, h1⟩).resource
              = Option.some Option.none) →
            (enrich_plan_report report idx).failed_checks.get ⟨i, h2⟩
              = report.failed_checks.get ⟨i, h1⟩) := by
  refine ⟨rfl, rfl, by simp [enrich_plan_report], ?_⟩
  intro i h1 h2
  have hget : (enrich_plan_report report idx).failed_checks.get ⟨i, h2⟩
      = (fun record => match dictGet idx record.resource with
          | Option.some (Option.some er) =>
            { record with
              file_path := er.scanned_file,
              file_line_range := er.entity_lines_range,
              code_block := er.entity_code_lines }
          | _ => record) (report.failed_checks.get ⟨i, h1⟩) := by
    simp [enrich_plan_report, List.get_eq_getElem, List.getElem_map]
  rcases hdg : dictGet idx (report.failed_checks.get ⟨i, h1⟩).resource with _ | v
  · have hval : (enrich_plan_report report idx).failed_checks.get ⟨i, h2⟩
        = report.failed_checks.get ⟨i, h1⟩ := by rw [hget]; simp only [hdg]
    rw [hval]
    exact ⟨⟨rfl, rfl, rfl, rfl, rfl⟩,
      fun er he => Option.noConfusion he, fun _ => rfl⟩
  · cases v with
    | none =>
      have hval : (enrich_plan_report report idx).failed_checks.get ⟨i, h2⟩
          = report.failed_checks.get ⟨i, h1⟩ := by rw [hget]; simp only [hdg]
      rw [hval]
      refine ⟨⟨rfl, rfl, rfl, rfl, rfl⟩, fun er he => ?_, fun _ => rfl⟩
      exact Option.noConfusion (Option.some.inj he)
    | some er =>
      have hval : (enrich_plan_report report idx).failed_checks.get ⟨i, h2⟩
          = { report.failed_checks.get ⟨i, h1⟩ with
              file_path := er.scanned_file,
              file_line_range := er.entity_lines_range,
              code_block := er.entity_code_lines } := by rw [hget]; simp only [hdg]
      rw [hval]
      refine ⟨⟨rfl, rfl, rfl, rfl, rfl⟩, fun er2 he => ?_, fun hor => ?_⟩
      · cases (Option.some.inj (Option.some.inj he))
        rfl
      · rcases hor with h0 | h0
        · exact Option.noConfusion h0
        · exact Option.noConfusion (Option.some.inj h0)

/-- Witness for C6: a failed record whose resource has no index entry keeps
its provenance fields (here: the whole record) unchanged. -/
theorem enrich_plan_report_frame_witness :
    (enrich_plan_report ⟨[exRecord "CKV_7" "u.res"], [], []⟩ []).failed_checks.get
        ⟨0, by simp [enrich_plan_report]⟩
      = exRecord "CKV_7" "u.res" :=
  ((enrich_plan_report_frame ⟨[exRecord "CKV_7" "u.res"], [], []⟩ []).2.2.2 0
      (by simp) (by simp [enrich_plan_report])).2.2 (Or.inl rfl)

/-! Claim C1: the amended single-record reconciliation theorem plus the
counterexample refuting the universally quantified original. -/

/-- Claim C1 (amended): when the failed collection holds exactly one record,
its resource has an index entry, and exactly one directive of that entry
matches the record's check_id by substring containment, then
handle_skipped_checks removes the record from failed, sets its result to
SKIPPED with the directive's suppress_comment, and appends it to skipped;
the index is returned unchanged.  (The original universally quantified
claim fails because of the mutation-during-iteration bug; see the
counterexample.) -/
theorem handle_skipped_checks_single_match
    (report : Report) (idx : Index) (record : Record) (entry : EnrichedEntry)
    (d : Skip) (pre post : List Skip)
    (hfail : report.failed_checks = [record])
    (hidx : dictGet idx record.resource = Option.some (Option.some entry))
    (hsk : entry.skipped_checks = pre ++ d :: post)
    (hpre : ∀ s ∈ pre, pyIn record.check_id s.id = false)
    (hpost : ∀ s ∈ post, pyIn record.check_id s.id = false)
    (hd : pyIn record.check_id d.id = true) :
    handle_skipped_checks report idx
      = (idx, Option.some
          { report with
            failed_checks := [],
            skipped_checks := report.skipped_checks
              ++ [{ record with
                    result := CheckResult.SKIPPED,
                    suppress_comment := Option.some d.suppress_comment }] }) := by
  have hmem : record ∈ report.failed_checks := by rw [hfail]; simp
  have herase : report.failed_checks.erase record = [] := by rw [hfail]; simp
  have hrs : runSkips report record entry.skipped_checks
      = Option.some
          { report with
            failed_checks := [],
            skipped_checks := report.skipped_checks
              ++ [{ record with
                    result := CheckResult.SKIPPED,
                    suppress_comment := Option.some d.suppress_comment }] } := by
    rw [hsk, runSkips_append_no_match report record pre (d :: post) hpre]
    simp only [runSkips, hd, if_true, hmem, herase, Report.add_record]
    exact runSkips_no_match _ _ post (fun s hs => hpost s hs)
  simp only [handle_skipped_checks]
  rw [hscLoop_step idx 0 report record entry _ (by rw [hfail]; rfl) hidx hrs]
  rw [hscLoop_done _ _ _ (by rfl)]

/-- Witness for C1 (amended), matching the spec's own example: a FAILED
record for CKV_1 with directive {id: CKV_1, suppress_comment: "x"} moves to
skipped with that comment. -/
theorem handle_skipped_checks_single_match_witness :
    handle_skipped_checks ⟨[exRecord "CKV_1" "aws_instance.foo"], [], []⟩
        [("aws_instance.foo", Option.some (exEntry [⟨"CKV_1", "x"⟩]))]
      = ([("aws_instance.foo", Option.some (exEntry [⟨"CKV_1", "x"⟩]))],
         Option.some
           ⟨[], [],
            [{ exRecord "CKV_1" "aws_instance.foo" with
               result := CheckResult.SKIPPED,
               suppress_comment := Option.some "x" }]⟩) := by
  have h := handle_skipped_checks_single_match
    ⟨[exRecord "CKV_1" "aws_instance.foo"], [], []⟩
    [("aws_instance.foo", Option.some (exEntry [⟨"CKV_1", "x"⟩]))]
    (exRecord "CKV_1" "aws_instance.foo") (exEntry [⟨"CKV_1", "x"⟩])
    ⟨"CKV_1", "x"⟩ [] []
    rfl (by decide) rfl (by decide) (by decide) (by decide)
  simpa using h

/-- First record of the C1 counterexample report (matching directive). -/
def c1RecA : Record := exRecord "CKV_1" "aws_instance.a"

/-- Second record of the C1 counterexample report (matching directive, but
skipped over by the live-list iteration after the first removal). -/
def c1RecB : Record := exRecord "CKV_2" "aws_instance.b"

/-- Index for the C1 counterexample: each resource has a matching directive. -/
def c1Idx : Index :=
  [("aws_instance.a", Option.some (exEntry [⟨"CKV_1", "a comment"⟩])),
   ("aws_instance.b", Option.some (exEntry [⟨"CKV_2", "b comment"⟩]))]

/-- Report for the C1 counterexample. -/
def c1Rep : Report := ⟨[c1RecA, c1RecB], [], []⟩

/-- Result of reconciling the C1 counterexample: the second record stays
FAILED even though its directive matches. -/
def c1Rep2 : Report :=
  ⟨[c1RecB], [],
   [{ c1RecA with result := CheckResult.SKIPPED, suppress_comment := Option.some "a comment" }]⟩

/-- Counterexample for C1: in c1Rep both failed records have an index entry
with a matching directive, yet after handle_skipped_checks the second record
is still in failed_checks and absent from skipped_checks — refuting "for
every record in the failed collection whose resource has a matching
directive, the record is removed from failed and inserted into skipped". -/
theorem c1_counterexample :
    handle_skipped_checks c1Rep c1Idx = (c1Idx, Option.some c1Rep2)
    ∧ dictGet c1Idx c1RecB.resource
        = Option.some (Option.some (exEntry [⟨"CKV_2", "b comment"⟩]))
    ∧ (∃ s ∈ (exEntry [⟨"CKV_2", "b comment"⟩]).skipped_checks,
        pyIn c1RecB.check_id s.id = true)
    ∧ c1RecB ∈ c1Rep2.failed_checks
    ∧ ¬ ∃ r ∈ c1Rep2.skipped_checks, r.check_id = c1RecB.check_id := by
  refine ⟨?_, by decide, by decide, by decide, by decide⟩
  simp only [handle_skipped_checks]
  rw [hscLoop_step c1Idx 0 c1Rep c1RecA (exEntry [⟨"CKV_1", "a comment"⟩]) c1Rep2
    (by decide) (by decide) (by decide)]
  rw [hscLoop_done _ _ _ (by decide)]

/-! Claim C2: the multi-directive completeness property fails on the code. -/

/-- First failed record on the shared resource of the C2 scenario. -/
def c2Rec1 : Record := exRecord "CKV_1" "aws_db.x"

/-- Second failed record on the shared resource of the C2 scenario. -/
def c2Rec2 : Record := exRecord "CKV_2" "aws_db.x"

/-- The shared resource's entry: one directive per failed check. -/
def c2Entry : EnrichedEntry := exEntry [⟨"CKV_1", "c one"⟩, ⟨"CKV_2", "c two"⟩]

/-- Index of the C2 scenario. -/
def c2Idx : Index := [("aws_db.x", Option.some c2Entry)]

/-- Report of the C2 scenario: two failed records on one resource. -/
def c2Rep : Report := ⟨[c2Rec1, c2Rec2], [], []⟩

/-- What the code actually produces for the C2 scenario: only the first
record moves to skipped; the second is never evaluated. -/
def c2Rep2 : Report :=
  ⟨[c2Rec2], [],
   [{ c2Rec1 with result := CheckResult.SKIPPED, suppress_comment := Option.some "c one" }]⟩

/-- Claim C2, evaluated at the failing input: a resource with two directives
each matching a different failed record leaves the second record in failed
(the live-list iterator skips the element after a removal), contradicting
the claim that both records move to skipped and that every record is
evaluated against every candidate directive. -/
theorem c2_snapshot_iteration_bug_eval :
    handle_skipped_checks c2Rep c2Idx = (c2Idx, Option.some c2Rep2)
    ∧ c2Rec2 ∈ c2Rep2.failed_checks
    ∧ (∃ s ∈ c2Entry.skipped_checks, pyIn c2Rec2.check_id s.id = true)
    ∧ ¬ ∃ r ∈ c2Rep2.skipped_checks, r.check_id = c2Rec2.check_id := by
  refine ⟨?_, by decide, by decide, by decide⟩
  simp only [handle_skipped_checks]
  rw [hscLoop_step c2Idx 0 c2Rep c2Rec1 c2Entry c2Rep2 (by decide) (by decide) (by decide)]
  rw [hscLoop_done _ _ _ (by decide)]

/-! Claim C3: graceful degradation on a missing index entry fails on the
code (KeyError), while the empty-directive-list case is indeed a no-op. -/

/-- Failed record whose resource has no index entry (C3 failing input). -/
def c3Rec : Record := exRecord "CKV_1" "aws_instance.foo"

/-- Report of the C3 failing input. -/
def c3Rep : Report := ⟨[c3Rec], [], []⟩

/-- Failed record whose resource has an entry with an empty directive list. -/
def c3RecE : Record := exRecord "CKV_3" "empty.res"

/-- Report for the empty-directive-list half of C3. -/
def c3RepE : Report := ⟨[c3RecE], [], []⟩

/-- Index carrying an entry with an empty directive list for empty.res. -/
def c3IdxE : Index := [("empty.res", Option.some (exEntry []))]

/-- Claim C3, evaluated at the failing input: with an empty index the
defaultdict access auto-inserts an empty entry and the skipped_checks key
access raises KeyError (modelled Option.none) instead of leaving the record
untouched; an entry with an empty directive list, in contrast, really is a
no-op. -/
theorem c3_missing_entry_keyerror_eval :
    handle_skipped_checks c3Rep [] = ([("aws_instance.foo", Option.none)], Option.none)
    ∧ handle_skipped_checks c3RepE c3IdxE = (c3IdxE, Option.some c3RepE) := by
  constructor
  · simp only [handle_skipped_checks]
    rw [hscLoop_keyerror ([] : Index) 0 c3Rep c3Rec (by decide) (by decide)]
    rfl
  · simp only [handle_skipped_checks]
    rw [hscLoop_step c3IdxE 0 c3RepE c3RecE (exEntry []) c3RepE
      (by decide) (by decide) (by decide)]
    rw [hscLoop_done _ _ _ (by decide)]

/-! Claim C4: preservation of the exactly-one-membership invariant. -/

/-- Claim C4: if every (check_id, resource_id) identity occurs on exactly
one record in exactly one of the three collections (reportKeys has no
duplicate), then any report that handle_skipped_checks returns satisfies the
same invariant: reconciliation only moves identities from failed to skipped,
one for one. -/
theorem handle_skipped_checks_preserves_exactly_one_membership
    (report : Report) (idx : Index) (report2 : Report)
    (hinv : (reportKeys report).Nodup)
    (hrun : (handle_skipped_checks report idx).2 = Option.some report2) :
    (reportKeys report2).Nodup := by
  have hpair : handle_skipped_checks report idx
      = ((handle_skipped_checks report idx).1, Option.some report2) := by
    rw [← hrun]
  have hloop : hscLoop idx 0 report
      = ((handle_skipped_checks report idx).1, Option.some report2) := hpair
  have hperm := hscLoop_keys_perm report.failed_checks.length 0 idx report
    (by omega) hloop
  exact hperm.symm.nodup hinv

/-- Sample FAILED record moved by the C4 witness run. -/
def wRec : Record := exRecord "CKV_W" "w.res"

/-- Sample PASSED record untouched by the C4 witness run. -/
def wPass : Record := { exRecord "CKV_P" "p.res" with result := CheckResult.PASSED }

/-- Sample SKIPPED record untouched by the C4 witness run. -/
def wSkip : Record := { exRecord "CKV_S" "s.res" with result := CheckResult.SKIPPED }

/-- Index entry matching wRec. -/
def wEntry : EnrichedEntry := exEntry [⟨"CKV_W", "why"⟩]

/-- Index of the C4 witness run. -/
def wIdx : Index := [("w.res", Option.some wEntry)]

/-- Input report of the C4 witness run: one record per collection. -/
def wRep : Report := ⟨[wRec], [wPass], [wSkip]⟩

/-- Output report of the C4 witness run. -/
def wRep2 : Report :=
  ⟨[], [wPass],
   [wSkip, { wRec with result := CheckResult.SKIPPED, suppress_comment := Option.some "why" }]⟩

/-- Witness for C4 at a concrete successful run. -/
theorem handle_skipped_checks_preserves_exactly_one_membership_witness :
    (reportKeys wRep2).Nodup :=
  handle_skipped_checks_preserves_exactly_one_membership wRep wIdx wRep2
    (by decide)
    (by
      simp only [handle_skipped_checks]
      rw [hscLoop_step wIdx 0 wRep wRec wEntry wRep2 (by decide) (by decide) (by decide)]
      rw [hscLoop_done _ _ _ (by decide)])

/-! Claim C7: index immutability. -/

/-- Record of the C7 counterexample, on a resource absent from the index. -/
def c7Rec : Record := exRecord "CKV_9" "missing.res"

/-- Report of the C7 counterexample. -/
def c7Rep : Report := ⟨[c7Rec], [], []⟩

/-- Counterexample for C7: handle_skipped_checks on an empty index and one
failed record mutates the index — the defaultdict subscript access inserts
an empty entry for the missing resource — so the index after the call is not
the index before it. -/
theorem c7_index_mutation_counterexample :
    (handle_skipped_checks c7Rep []).1 = [("missing.res", Option.none)]
    ∧ (handle_skipped_checks c7Rep []).1 ≠ ([] : Index) := by
  have h : handle_skipped_checks c7Rep [] = ([("missing.res", Option.none)], Option.none) := by
    simp only [handle_skipped_checks]
    rw [hscLoop_keyerror ([] : Index) 0 c7Rep c7Rec (by decide) (by decide)]
    rfl
  rw [h]
  exact ⟨rfl, by decide⟩

/-- Claim C7 (amended): as long as every failed record's resource is a key
of the index, handle_skipped_checks returns the index unchanged (also on
exceptional runs); enrich_plan_report only ever reads the index through
dict.get, which never inserts. -/
theorem handle_skipped_checks_index_unchanged
    (report : Report) (idx : Index)
    (hkeys : ∀ r ∈ report.failed_checks, (dictGet idx r.resource).isSome) :
    (handle_skipped_checks report idx).1 = idx := by
  simp only [handle_skipped_checks]
  exact hscLoop_index_unchanged report.failed_checks.length 0 idx report (by omega) hkeys

/-- Witness for C7 (amended) at a concrete run whose failed record has an
index entry. -/
theorem handle_skipped_checks_index_unchanged_witness :
    (handle_skipped_checks wRep wIdx).1 = wIdx :=
  handle_skipped_checks_index_unchanged wRep wIdx (by decide)

end Checkov
